import Mathlib

/-!
Shallow embedding of the Allele Parsing & Consensus Engine of
`src/alleleTools/allele.py` (classes `Allele`, `DelimitedParser`, `Solution`,
`FieldTree`).

Modelling conventions:
* Python strings are modelled as `List Char` (`Str` below).  The Python
  `str.split(sep)` for the single-character separators used by this code base
  is `List.splitOn`, and `sep.join(parts)` is `List.intercalate`.
* Delimiters are modelled as single characters: every parser configuration
  shipped with the repository (`parser_config.json`) uses one-character
  delimiters such as `"*"` and `":"`.
* Python `float` weights/supports are modelled as exact rationals `ℚ`.
* The assertion at the top of `FieldTree.get_consensus` is modelled by an
  `Option` result: `none` corresponds to the `AssertionError` raised when
  `min_support` is outside `[0, 1]`.
* Mutation of `self` is modelled by state passing: `Allele.truncate` and
  `FieldTree.get_consensus` return the post-call receiver next to their
  Python return value.
-/

abbrev Str := List Char

/-- Enumeration `AlleleMatchStatus` from `allele.py`. -/
inductive AlleleMatchStatus where
  | NOT_EQUAL
  | EQUAL
  | LESS_RESOLUTION
  | MORE_RESOLUTION
deriving DecidableEq, Repr

/-- The attributes stored by `Allele.__init__`.  The constructor in the source
performs no validation: it stores `fields`, `gene` and the two delimiters, and
sets `confidence` only when a (truthy) confidence value is supplied, which is
modelled by an `Option`. -/
structure Allele where
  gene : Str
  fields : List Str
  gene_delimiter : Char
  field_delimiter : Char
  confidence : Option ℚ
deriving DecidableEq, Repr

/-- Embeds `Allele.__init__`: stores the given values; there is no `raise` statement
in its body, so the embedded constructor is a total function. -/
def Allele.init (gene : Str) (fields : List Str) (confidence : Option ℚ)
    (gene_delimiter field_delimiter : Char) : Allele :=
  { gene := gene, fields := fields, gene_delimiter := gene_delimiter,
    field_delimiter := field_delimiter, confidence := confidence }

/-- The sentinel `Allele("", [])` used by the source for unparseable input
(default delimiters `*` and `:`, no confidence). -/
def emptyAllele : Allele := Allele.init [] [] none '*' ':'

/-- Embeds `Allele.__str__`: empty string when both gene and fields are empty
(Python truthiness of `self.gene` and `self.fields`), otherwise
`gene + gene_delimiter + field_delimiter.join(fields)`. -/
def Allele.toStr (a : Allele) : Str :=
  if a.gene = [] ∧ a.fields = [] then []
  else a.gene ++ a.gene_delimiter :: List.intercalate [a.field_delimiter] a.fields

/-- Embeds `Allele.truncate`: returns `(python return value, self after the call)`.
When `new_resolution > len(self)` the source returns a fresh `Allele("", [])`
without touching `self`; otherwise it assigns `self.fields = fields[:n]` and
returns `self`. -/
def Allele.truncate (a : Allele) (new_resolution : ℕ) : Allele × Allele :=
  if a.fields.length < new_resolution then (emptyAllele, a)
  else
    let a' := { a with fields := a.fields.take new_resolution }
    (a', a')

/-- Embeds `Allele.compare`: gene mismatch, then the first differing field among the
pairwise-zipped fields (the Python `for`-loop with early return), then the
resolution comparison. -/
def Allele.compare (a b : Allele) : AlleleMatchStatus :=
  if a.gene ≠ b.gene then .NOT_EQUAL
  else if (a.fields.zip b.fields).any (fun p => decide (p.1 ≠ p.2)) then .NOT_EQUAL
  else if b.fields.length < a.fields.length then .LESS_RESOLUTION
  else if a.fields.length < b.fields.length then .MORE_RESOLUTION
  else .EQUAL

/-- The `DelimitedParser.__init__` configuration. -/
structure DelimitedParser where
  gene_delimiter : Char
  field_delimiter : Char

/-- Embeds `DelimitedParser.parse`: splits on the gene delimiter; any split that does
not yield exactly two parts produces the sentinel `Allele("", [])` (the source
prints a warning and never raises).  Otherwise the first part is the gene and
the second part is split on the field delimiter. -/
def DelimitedParser.parse (p : DelimitedParser) (text : Str) : Allele :=
  let parts := text.splitOn p.gene_delimiter
  if parts.length ≠ 2 then emptyAllele
  else
    Allele.init (parts.headD []) ((parts.getD 1 []).splitOn p.field_delimiter)
      none p.gene_delimiter p.field_delimiter

example : (DelimitedParser.mk '*' ':').parse ("A*01:02".toList)
    = Allele.init "A".toList ["01".toList, "02".toList] none '*' ':' := by decide

example : (DelimitedParser.mk '*' ':').parse ("A01:02".toList) = emptyAllele := by decide

example : (Allele.init "A".toList ["02".toList, "01".toList] none '*' ':').compare
    (Allele.init "A".toList ["02".toList, "01".toList, "01".toList, "01".toList] none '*' ':')
    = .MORE_RESOLUTION := by decide

/-- Transient `Solution` record from `allele.py`: a candidate field-path string
together with its accumulated support. -/
structure Solution where
  allele : Str
  support : ℚ
deriving DecidableEq, Repr

/-- The `FieldTree` node of `allele.py`: a field value, an accumulated support
and an ordered list of children. -/
inductive FieldTree where
  | node (field : Str) (support : ℚ) (children : List FieldTree)
deriving Repr

def FieldTree.field : FieldTree → Str
  | .node f _ _ => f

def FieldTree.support : FieldTree → ℚ
  | .node _ s _ => s

def FieldTree.children : FieldTree → List FieldTree
  | .node _ _ cs => cs

/-- Embeds `FieldTree.__init__(name)`: support `0`, no children. -/
def FieldTree.init (name : Str) : FieldTree := .node name 0 []

/-- The loop of `FieldTree.add` over `self.children`: replace the first child
whose `field` matches `name` by its updated version `g child`; if no child
matches, append `g (FieldTree(name))` at the end (the source creates
`new_tree = FieldTree(name)` and calls `new_tree.add(overhead, weight)`). -/
def FieldTree.updateChild (g : FieldTree → FieldTree) (name : Str) :
    List FieldTree → List FieldTree
  | [] => [g (FieldTree.init name)]
  | c :: cs => if c.field = name then g c :: cs else c :: FieldTree.updateChild g name cs

/-- Embeds `FieldTree.add(fields, weight)`: adds `weight` to the support of this node and
recurses into (or creates) the child matching `fields[0]` with the remainder
of the path. -/
def FieldTree.add : FieldTree → List Str → ℚ → FieldTree
  | .node f s cs, [], _w => .node f (s + _w) cs
  | .node f s cs, name :: overhead, w =>
      .node f (s + w) (FieldTree.updateChild (fun c => FieldTree.add c overhead w) name cs)

/-- Embeds `FieldTree.add_batch(batch, weight)`: adds every field list of the batch
(the early return on an empty batch is the same as folding over nothing). -/
def FieldTree.add_batch (t : FieldTree) (batch : List (List Str)) (weight : ℚ) : FieldTree :=
  batch.foldl (fun acc fields => acc.add fields weight) t

example :
    ((FieldTree.init "A".toList).add ["01".toList, "02".toList] 1).add ["01".toList] 1
      = .node "A".toList 2 [.node "01".toList 2 [.node "02".toList 1 []]] := by
  norm_num [FieldTree.init, FieldTree.add, FieldTree.updateChild, FieldTree.field]

/-- Embeds `FieldTree.__merge_with_current_node__`: prepend the field of the current node
(with a hard-coded `":"`) to every child solution; an empty input yields the
current node itself as the solution. -/
def FieldTree.mergeWithCurrent (field : Str) (support : ℚ) (res : List Solution) :
    List Solution :=
  if res.length = 0 then [⟨field, support⟩]
  else res.map (fun solution => ⟨field ++ ':' :: solution.allele, solution.support⟩)

mutual

/-- Embeds `FieldTree.__get_consensus__(min_support_number)`: prune the subtree
when the support of the node is below the threshold, report a leaf as a
terminal solution, otherwise collect the child solutions merged with this node,
falling back to the node itself when no child qualifies. -/
def FieldTree.gcRec : FieldTree → ℚ → List Solution
  | .node f s cs, thr =>
    if s < thr then []
    else if cs.length ≤ 0 then [⟨f, s⟩]
    else
      let sols := FieldTree.gcChildren f s cs thr
      if sols = [] then [⟨f, s⟩] else sols

/-- The `for child in self.children` loop of `__get_consensus__`: children that
yield no solution are skipped, the others are merged with the current node and
collected in order. -/
def FieldTree.gcChildren (f : Str) (s : ℚ) : List FieldTree → ℚ → List Solution
  | [], _thr => []
  | c :: cs, thr =>
      (let csol := FieldTree.gcRec c thr
       if csol = [] then [] else FieldTree.mergeWithCurrent f s csol)
        ++ FieldTree.gcChildren f s cs thr

end

/-- Stable insertion: `x` goes after every already-placed element `y` with
`le y x`. -/
def insertSorted (le : α → α → Bool) (x : α) : List α → List α
  | [] => [x]
  | y :: ys => if le y x then y :: insertSorted le x ys else x :: y :: ys

/-- Model of the stable Python `list.sort`: for a total preorder every stable
sort returns the same list, so a left-to-right stable insertion sort is used.
`le a b = true` means `a` may stay before `b`. -/
def pySort (le : α → α → Bool) (l : List α) : List α :=
  l.foldl (fun acc x => insertSorted le x acc) []

/-- Strict lexicographic order on code points, the Python `<` on strings. -/
def strLtb : Str → Str → Bool
  | [], [] => false
  | [], _ :: _ => true
  | _ :: _, [] => false
  | a :: as, b :: bs => if a = b then strLtb as bs else decide (a < b)

/-- Embeds `FieldTree.__format_solutions_as_alleles__`: one pass over the solutions,
always appending the support; a solution whose path splits into at most one
`":"`-separated node is the gene name alone and is rendered as the empty
string, otherwise the path is rendered through the `Allele` class. -/
def formatSolutions (solutions : List Solution)
    (gene_delimiter field_delimiter : Char) : List Str × List ℚ :=
  solutions.foldl
    (fun acc solution =>
      let supports := acc.2 ++ [solution.support]
      let nodes := solution.allele.splitOn ':'
      if nodes.length ≤ 1 then (acc.1 ++ [[]], supports)
      else
        (acc.1 ++
          [(Allele.init (nodes.headD []) nodes.tail none
              gene_delimiter field_delimiter).toStr],
         supports))
    ([], [])

/-- Embeds `FieldTree.get_consensus(min_support, gene_delimiter, field_delimiter,
max_support)`.  The leading `assert min_support <= 1 and min_support >= 0` is
modelled by `none`; a falsy (`0`) `max_support` argument is replaced by the
support of the root; the threshold is `math.ceil(max_support * min_support)`; the
solutions are stably sorted by descending support, cut to two, stably sorted
by allele name, duplicated when a single solution reaches half the maximum
support, and formatted.  The receiver (returned unchanged as the second
component) is never written to by the source. -/
def FieldTree.get_consensus (t : FieldTree) (min_support : ℚ)
    (gene_delimiter field_delimiter : Char) (max_support : ℚ) :
    Option ((List Str × List ℚ) × FieldTree) :=
  if min_support ≤ 1 ∧ 0 ≤ min_support then
    let max_support := if max_support = 0 then t.support else max_support
    let min_support_n := max_support * min_support
    let solutions := t.gcRec ((⌈min_support_n⌉ : ℤ) : ℚ)
    let solutions := (pySort (fun a b => !(decide (a.support < b.support))) solutions).take 2
    let solutions := pySort (fun a b => !(strLtb b.allele a.allele)) solutions
    let solutions :=
      if solutions.length = 1 ∧ max_support / 2 ≤ (solutions.headD ⟨[], 0⟩).support
      then solutions ++ solutions else solutions
    some (formatSolutions solutions gene_delimiter field_delimiter, t)
  else none

/-- Descend along a path of field values below a node, scanning the children
lists for the first child with a matching field, as `add` does. -/
def FieldTree.lookup : List Str → FieldTree → Option FieldTree
  | [], t => some t
  | name :: rest, t =>
    match t.children.find? (fun c => c.field == name) with
    | some c => FieldTree.lookup rest c
    | none => none

/-- The support recorded at the node reached by `path` from `t`, `0` when no
node lies at that path. -/
def supportAt (t : FieldTree) (path : List Str) : ℚ :=
  match FieldTree.lookup path t with
  | some n => n.support
  | none => 0

/-- A tree built from scratch (`FieldTree(gene)`) by a sequence of
`add(fields, weight)` calls. -/
def buildTree (g : Str) (obs : List (List Str × ℚ)) : FieldTree :=
  obs.foldl (fun t ob => t.add ob.1 ob.2) (FieldTree.init g)

/-! ## Helper lemmas about the field comparison loop -/

lemma zip_any_ne_iff (as bs : List Str) :
    ((as.zip bs).any fun p => decide (p.1 ≠ p.2)) = true ↔
      ∃ i, i < min as.length bs.length ∧ as.getD i [] ≠ bs.getD i [] := by
  induction as generalizing bs with
  | nil => simp
  | cons a as ih =>
    cases bs with
    | nil => simp
    | cons b bs =>
      simp only [List.zip_cons_cons, List.any_cons, Bool.or_eq_true, decide_eq_true_eq, ih,
        List.length_cons, Nat.succ_min_succ]
      constructor
      · rintro (h | ⟨i, hi, hne⟩)
        · exact ⟨0, Nat.succ_pos _, by simpa using h⟩
        · exact ⟨i + 1, by omega, by simpa using hne⟩
      · rintro ⟨i, hi, hne⟩
        cases i with
        | zero => exact Or.inl (by simpa using hne)
        | succ j => exact Or.inr ⟨j, by omega, by simpa using hne⟩

lemma zip_any_ne_comm (as bs : List Str) :
    ((as.zip bs).any fun p => decide (p.1 ≠ p.2))
      = ((bs.zip as).any fun p => decide (p.1 ≠ p.2)) := by
  induction as generalizing bs with
  | nil => cases bs <;> simp
  | cons a as ih =>
    cases bs with
    | nil => simp
    | cons b bs =>
      simp only [List.zip_cons_cons, List.any_cons]
      rw [ih bs]
      congr 1
      exact decide_eq_decide.mpr ne_comm

lemma zip_any_ne_self (l : List Str) :
    ((l.zip l).any fun p => decide (p.1 ≠ p.2)) = false := by
  induction l with
  | nil => rfl
  | cons a as ih =>
    simp only [List.zip_cons_cons, List.any_cons, ih, Bool.or_false]
    simp

/-- C4: `Allele.compare` returns `NOT_EQUAL` when the genes differ or some
pair of fields at the same position, up to the shorter field count, differs;
otherwise it returns `LESS_RESOLUTION` when `a` has strictly more fields than
`b`, `MORE_RESOLUTION` when `a` has strictly fewer, and `EQUAL` when the field
counts coincide. -/
theorem Allele.compare_spec (a b : Allele) :
    ((a.gene ≠ b.gene ∨
        ∃ i, i < min a.fields.length b.fields.length ∧ a.fields.getD i [] ≠ b.fields.getD i []) →
      a.compare b = .NOT_EQUAL) ∧
    (a.gene = b.gene →
      (∀ i, i < min a.fields.length b.fields.length → a.fields.getD i [] = b.fields.getD i []) →
      a.compare b =
        if b.fields.length < a.fields.length then .LESS_RESOLUTION
        else if a.fields.length < b.fields.length then .MORE_RESOLUTION
        else .EQUAL) := by
  constructor
  · rintro (hg | hf)
    · unfold Allele.compare
      rw [if_pos hg]
    · rcases eq_or_ne a.gene b.gene with hg | hg
      · have hz := (zip_any_ne_iff a.fields b.fields).2 hf
        unfold Allele.compare
        rw [if_neg (fun h => h hg), if_pos hz]
      · unfold Allele.compare
        rw [if_pos hg]
  · intro hg hf
    have hz : ((a.fields.zip b.fields).any fun p => decide (p.1 ≠ p.2)) = false := by
      rw [Bool.eq_false_iff]
      intro h
      obtain ⟨i, hi, hne⟩ := (zip_any_ne_iff a.fields b.fields).1 h
      exact hne (hf i hi)
    unfold Allele.compare
    rw [if_neg (fun h => h hg), hz]
    simp

/-- Closed instance of `Allele.compare_spec`: `A*02:01` compared with
`A*02:01:01:01` and with `B*02:01`. -/
theorem Allele.compare_spec_witness :
    ((Allele.init "A".toList ["02".toList, "01".toList] none '*' ':').gene =
        (Allele.init "A".toList ["02".toList, "01".toList, "01".toList, "01".toList] none '*' ':').gene) ∧
    (Allele.init "A".toList ["02".toList, "01".toList] none '*' ':').compare
        (Allele.init "A".toList ["02".toList, "01".toList, "01".toList, "01".toList] none '*' ':')
      = .MORE_RESOLUTION := by
  refine ⟨by decide, ?_⟩
  have h := (Allele.compare_spec
    (Allele.init "A".toList ["02".toList, "01".toList] none '*' ':')
    (Allele.init "A".toList ["02".toList, "01".toList, "01".toList, "01".toList] none '*' ':')).2
    (by decide) (by decide)
  simpa using h

/-- C5: for alleles of the same gene, `compare` is `MORE_RESOLUTION` in one
direction exactly when it is `LESS_RESOLUTION` in the other, and `EQUAL` is
symmetric. -/
theorem Allele.compare_symm_kind (a b : Allele) (hg : a.gene = b.gene) :
    (a.compare b = .MORE_RESOLUTION ↔ b.compare a = .LESS_RESOLUTION) ∧
    (a.compare b = .EQUAL ↔ b.compare a = .EQUAL) := by
  have hz := zip_any_ne_comm a.fields b.fields
  have hga : ¬ (a.gene ≠ b.gene) := fun h => h hg
  have hgb : ¬ (b.gene ≠ a.gene) := fun h => h hg.symm
  unfold Allele.compare
  rw [if_neg hga, if_neg hgb, hz]
  rcases hb : ((b.fields.zip a.fields).any fun p => decide (p.1 ≠ p.2)) with _ | _
  · rcases lt_trichotomy a.fields.length b.fields.length with hlt | heq | hgt
    · simp [hlt, Nat.lt_asymm hlt]
    · simp [heq]
    · simp [hgt, Nat.lt_asymm hgt]
  · simp

/-- Closed instance of `Allele.compare_symm_kind` at `A*02:01` vs
`A*02:01:01:01`. -/
theorem Allele.compare_symm_kind_witness :
    ((Allele.init "A".toList ["02".toList, "01".toList] none '*' ':').compare
        (Allele.init "A".toList ["02".toList, "01".toList, "01".toList, "01".toList] none '*' ':')
        = .MORE_RESOLUTION ↔
      (Allele.init "A".toList ["02".toList, "01".toList, "01".toList, "01".toList] none '*' ':').compare
        (Allele.init "A".toList ["02".toList, "01".toList] none '*' ':')
        = .LESS_RESOLUTION) ∧
    ((Allele.init "A".toList ["02".toList, "01".toList] none '*' ':').compare
        (Allele.init "A".toList ["02".toList, "01".toList, "01".toList, "01".toList] none '*' ':')
        = .EQUAL ↔
      (Allele.init "A".toList ["02".toList, "01".toList, "01".toList, "01".toList] none '*' ':').compare
        (Allele.init "A".toList ["02".toList, "01".toList] none '*' ':')
        = .EQUAL) :=
  Allele.compare_symm_kind _ _ (by decide)

/-- C7: `truncate(n)` with `n` beyond the current resolution returns the empty
sentinel and leaves the allele unmodified; with `n` at most the field count it
shortens the fields in place to the first `n` entries and returns the modified
allele itself. -/
theorem Allele.truncate_spec (a : Allele) (n : ℕ) :
    (a.fields.length < n →
      (a.truncate n).1 = emptyAllele ∧ (a.truncate n).2 = a) ∧
    (n ≤ a.fields.length →
      (a.truncate n).1 = (a.truncate n).2 ∧
      (a.truncate n).2 = { a with fields := a.fields.take n }) := by
  constructor
  · intro h
    simp [Allele.truncate, h]
  · intro h
    simp [Allele.truncate, Nat.not_lt.2 h]

/-- Closed instance of `Allele.truncate_spec`: truncating `A*01:02:03` to 2
fields and to 4 fields. -/
theorem Allele.truncate_spec_witness :
    ((Allele.init "A".toList ["01".toList, "02".toList, "03".toList] none '*' ':').truncate 2).2
      = Allele.init "A".toList ["01".toList, "02".toList] none '*' ':' ∧
    ((Allele.init "A".toList ["01".toList, "02".toList, "03".toList] none '*' ':').truncate 4).1
      = emptyAllele := by
  constructor
  · have h := ((Allele.truncate_spec
      (Allele.init "A".toList ["01".toList, "02".toList, "03".toList] none '*' ':') 2).2
      (by decide)).2
    rw [h]
    decide
  · exact ((Allele.truncate_spec
      (Allele.init "A".toList ["01".toList, "02".toList, "03".toList] none '*' ':') 4).1
      (by decide)).1

/-- C8: `DelimitedParser.parse` is a total function of the input text: when
the split on the gene delimiter yields exactly two parts the result stores the
first part as the gene and the second part split on the field delimiter as the
fields; any other number of parts yields the sentinel `Allele("", [])`. -/
theorem DelimitedParser.parse_spec (gd fd : Char) (text : Str) :
    (∀ g f, text.splitOn gd = [g, f] →
      (DelimitedParser.mk gd fd).parse text = Allele.init g (f.splitOn fd) none gd fd) ∧
    ((text.splitOn gd).length ≠ 2 →
      (DelimitedParser.mk gd fd).parse text = emptyAllele) := by
  constructor
  · intro g f h
    simp [DelimitedParser.parse, h]
  · intro h
    simp [DelimitedParser.parse, h]

/-- Closed instance of `DelimitedParser.parse_spec`: parsing `A*01:02` and the
malformed `A01`. -/
theorem DelimitedParser.parse_spec_witness :
    (DelimitedParser.mk '*' ':').parse "A*01:02".toList
      = Allele.init "A".toList ["01".toList, "02".toList] none '*' ':' ∧
    (DelimitedParser.mk '*' ':').parse "A01".toList = emptyAllele := by
  constructor
  · have h := (DelimitedParser.parse_spec '*' ':' "A*01:02".toList).1
      "A".toList "01:02".toList (by decide)
    rw [h]
    decide
  · exact (DelimitedParser.parse_spec '*' ':' "A01".toList).2 (by decide)

/-- C9 (counterexample): constructing an `Allele` from a non-empty field list
and an empty gene does not fail: `Allele.__init__` has no validation and no
`raise` path, so the embedded constructor is total and simply stores the
conflicting values. -/
theorem Allele.init_conflicting_inputs_stored :
    (Allele.init [] [['0', '1']] none '*' ':').gene = [] ∧
    (Allele.init [] [['0', '1']] none '*' ':').fields = [['0', '1']] := by
  decide

/-- C9 (amended): the `Allele` constructor performs no validation at all; for
every combination of arguments, including a non-empty field list with an empty
gene, it succeeds and stores the arguments unchanged. -/
theorem Allele.init_stores_values (gene : Str) (fields : List Str) (confidence : Option ℚ)
    (gd fd : Char) :
    (Allele.init gene fields confidence gd fd).gene = gene ∧
    (Allele.init gene fields confidence gd fd).fields = fields ∧
    (Allele.init gene fields confidence gd fd).confidence = confidence ∧
    (Allele.init gene fields confidence gd fd).gene_delimiter = gd ∧
    (Allele.init gene fields confidence gd fd).field_delimiter = fd :=
  ⟨rfl, rfl, rfl, rfl, rfl⟩

/-! ## Helper lemmas for the rendering round trip -/

lemma intercalate_cons_cons (s a b : Str) (t : List Str) :
    List.intercalate s (a :: b :: t) = a ++ s ++ List.intercalate s (b :: t) := by
  simp [List.intercalate, List.intersperse_cons_cons]

lemma not_mem_intercalate {x sep : Char} {ls : List Str} (hsep : x ≠ sep)
    (h : ∀ l ∈ ls, x ∉ l) : x ∉ List.intercalate [sep] ls := by
  induction ls with
  | nil => simp [List.intercalate]
  | cons a t ih =>
    cases t with
    | nil => simpa [List.intercalate] using h a (by simp)
    | cons b t2 =>
      rw [intercalate_cons_cons]
      intro hx
      rcases List.mem_append.1 hx with hx | hx
      · rcases List.mem_append.1 hx with hx | hx
        · exact h a (by simp) hx
        · exact hsep (List.mem_singleton.1 hx)
      · exact ih (fun l hl => h l (List.mem_cons_of_mem _ hl)) hx

lemma Allele.compare_eq_of_eq (a b : Allele) (hg : a.gene = b.gene)
    (hf : a.fields = b.fields) : a.compare b = .EQUAL := by
  have hga : ¬ (a.gene ≠ b.gene) := fun h => h hg
  unfold Allele.compare
  rw [if_neg hga, hf, zip_any_ne_self]
  simp

/-- C6 (counterexample): the rendering round trip fails as soon as a field
token contains the field delimiter: `A` with the single field `0:1` renders as
`A*0:1`, which parses back with two fields `0` and `1` and does not compare
`EQUAL` to the original allele. -/
theorem parse_toStr_roundtrip_counterexample :
    ((DelimitedParser.mk '*' ':').parse
        (Allele.init ['A'] [['0', ':', '1']] none '*' ':').toStr).compare
      (Allele.init ['A'] [['0', ':', '1']] none '*' ':') ≠ .EQUAL := by
  decide

/-- C6 (amended): for every allele built from a non-empty field list whose
gene and field tokens do not contain the configured delimiters (the two
delimiters being distinct), parsing the rendered string with a
`DelimitedParser` configured with the same delimiters yields an allele that
compares `EQUAL` to the original. -/
theorem DelimitedParser.parse_toStr_roundtrip (gene : Str) (fields : List Str)
    (c : Option ℚ) (gd fd : Char) (hne : fields ≠ []) (hgene : gd ∉ gene)
    (hdelim : gd ≠ fd) (hfields : ∀ f ∈ fields, gd ∉ f ∧ fd ∉ f) :
    ((DelimitedParser.mk gd fd).parse (Allele.init gene fields c gd fd).toStr).compare
      (Allele.init gene fields c gd fd) = .EQUAL := by
  have hrest : gd ∉ List.intercalate [fd] fields :=
    not_mem_intercalate hdelim (fun l hl => (hfields l hl).1)
  have hstr : (Allele.init gene fields c gd fd).toStr
      = List.intercalate [gd] [gene, List.intercalate [fd] fields] := by
    rw [intercalate_cons_cons]
    simp [Allele.toStr, Allele.init, hne, List.intercalate]
  have hsplit : ((Allele.init gene fields c gd fd).toStr).splitOn gd
      = [gene, List.intercalate [fd] fields] := by
    rw [hstr]
    refine List.splitOn_intercalate _ gd ?_ (by simp)
    rintro l hl
    simp only [List.mem_cons, List.not_mem_nil, or_false] at hl
    rcases hl with rfl | rfl
    · exact hgene
    · exact hrest
  have hfieldsplit : (List.intercalate [fd] fields).splitOn fd = fields :=
    List.splitOn_intercalate _ fd (fun l hl => (hfields l hl).2) hne
  have hparse : (DelimitedParser.mk gd fd).parse (Allele.init gene fields c gd fd).toStr
      = Allele.init gene ((List.intercalate [fd] fields).splitOn fd) none gd fd := by
    unfold DelimitedParser.parse
    simp [hsplit]
  rw [hparse, hfieldsplit]
  exact Allele.compare_eq_of_eq _ _ rfl rfl

/-- Closed instance of `DelimitedParser.parse_toStr_roundtrip` at `A*01:02`. -/
theorem DelimitedParser.parse_toStr_roundtrip_witness :
    (["01".toList, "02".toList] ≠ ([] : List Str)) ∧
    ((DelimitedParser.mk '*' ':').parse
        (Allele.init "A".toList ["01".toList, "02".toList] none '*' ':').toStr).compare
      (Allele.init "A".toList ["01".toList, "02".toList] none '*' ':') = .EQUAL :=
  ⟨by decide, DelimitedParser.parse_toStr_roundtrip "A".toList ["01".toList, "02".toList]
    none '*' ':' (by decide) (by decide) (by decide) (by decide)⟩

/-- C10: `get_consensus` never writes to the tree: whatever it returns, the
receiver threaded through the call comes back exactly as it went in, so
repeated calls observe the same tree state. -/
theorem FieldTree.get_consensus_preserves_tree (t : FieldTree) (min_support : ℚ)
    (gd fd : Char) (max_support : ℚ) :
    t.get_consensus min_support gd fd max_support
      = (t.get_consensus min_support gd fd max_support).map (fun p => (p.1, t)) := by
  unfold FieldTree.get_consensus
  split
  · simp
  · simp

/-! ## Evaluation helpers for the consensus pipeline -/

/-- The allele string produced for a single solution by
`__format_solutions_as_alleles__`. -/
def formatOne (gene_delimiter field_delimiter : Char) (solution : Solution) : Str :=
  let nodes := solution.allele.splitOn ':'
  if nodes.length ≤ 1 then []
  else (Allele.init (nodes.headD []) nodes.tail none gene_delimiter field_delimiter).toStr

lemma formatSolutions_eq_map (solutions : List Solution) (gd fd : Char) :
    formatSolutions solutions gd fd
      = (solutions.map (formatOne gd fd), solutions.map Solution.support) := by
  unfold formatSolutions
  suffices h : ∀ acc : List Str × List ℚ,
      solutions.foldl
        (fun acc solution =>
          let supports := acc.2 ++ [solution.support]
          let nodes := solution.allele.splitOn ':'
          if nodes.length ≤ 1 then (acc.1 ++ [[]], supports)
          else
            (acc.1 ++
              [(Allele.init (nodes.headD []) nodes.tail none gd fd).toStr],
             supports)) acc
        = (acc.1 ++ solutions.map (formatOne gd fd),
           acc.2 ++ solutions.map Solution.support) by
    simpa using h ([], [])
  induction solutions with
  | nil => intro acc; simp
  | cons s rest ih =>
    intro acc
    rw [List.foldl_cons, ih]
    by_cases h : (List.splitOn ':' s.allele).length ≤ 1
    · simp [formatOne, h]
    · simp [formatOne, h]

lemma pySort_singleton (le : α → α → Bool) (x : α) : pySort le [x] = [x] := rfl

lemma splitOn_eq_single_of_not_mem {g : Str} (hg : ':' ∉ g) : g.splitOn ':' = [g] := by
  rw [List.splitOn]
  refine List.splitOnP_eq_single _ _ ?_
  intro y hy
  simp only [beq_iff_eq]
  rintro rfl
  exact hg hy

/-- Evaluation of `get_consensus` on a root-only tree with zero support: the
threshold is `0`, the root itself is the single solution, the homozygous
duplication fires (`0 ≥ 0 / 2`), and the gene-only solution is rendered as the
empty string, twice. -/
lemma get_consensus_root_only (g : Str) (ms : ℚ) (gd fd : Char)
    (h0 : 0 ≤ ms) (h1 : ms ≤ 1) (hg : ':' ∉ g) :
    (FieldTree.init g).get_consensus ms gd fd 0
      = some (([[], []], [0, 0]), FieldTree.init g) := by
  have hsplit := splitOn_eq_single_of_not_mem hg
  unfold FieldTree.get_consensus
  rw [if_pos ⟨h1, h0⟩]
  norm_num [FieldTree.init, FieldTree.support, FieldTree.gcRec, FieldTree.children,
    pySort, insertSorted, formatSolutions_eq_map, formatOne, hsplit]

/-- C1 (counterexample): for the root-only tree `FieldTree("A")` (total
support `0`) and `min_support = 1/2`, `get_consensus` does not return the pair
of two empty lists: it returns two empty-string alleles with supports
`[0, 0]`. -/
theorem get_consensus_zero_support_counterexample :
    ((FieldTree.init ['A']).get_consensus (1/2) '*' ':' 0).map Prod.fst
      ≠ some ([], []) := by
  rw [get_consensus_root_only ['A'] (1/2) '*' ':' (by norm_num) (by norm_num) (by decide)]
  simp

/-- C1 (amended): a root-only tree with zero support (a gene with no
contributing calls, the gene name containing no `:`) yields, for every
`min_support` in `[0, 1]`, not the empty lists but the no-consensus sentinel
duplicated by the homozygous adjustment: two empty allele strings with zero
support, `(["", ""], [0, 0])`. -/
theorem FieldTree.get_consensus_zero_support (g : Str) (ms : ℚ) (gd fd : Char)
    (h0 : 0 ≤ ms) (h1 : ms ≤ 1) (hg : ':' ∉ g) :
    (FieldTree.init g).get_consensus ms gd fd 0
      = some (([[], []], [0, 0]), FieldTree.init g) :=
  get_consensus_root_only g ms gd fd h0 h1 hg

/-- Closed instance of `FieldTree.get_consensus_zero_support` at gene `A`,
`min_support = 1/2`. -/
theorem FieldTree.get_consensus_zero_support_witness :
    (0 : ℚ) ≤ 1 / 2 ∧ (1 : ℚ) / 2 ≤ 1 ∧
    (FieldTree.init ['A']).get_consensus (1/2) '*' ':' 0
      = some (([[], []], [0, 0]), FieldTree.init ['A']) :=
  ⟨by norm_num, by norm_num,
    FieldTree.get_consensus_zero_support ['A'] (1/2) '*' ':'
      (by norm_num) (by norm_num) (by decide)⟩

/-- C2: when the recursive search returns exactly one qualifying solution,
`get_consensus` duplicates it into both allele slots (identical allele strings
and identical supports) exactly when its support reaches half of the effective
`max_support` (the total support of the root when the `max_support` argument is
falsy); otherwise the single solution is returned without duplication. -/
theorem FieldTree.get_consensus_single_solution (t : FieldTree) (ms M eff : ℚ)
    (gd fd : Char) (sol : Solution)
    (h0 : 0 ≤ ms) (h1 : ms ≤ 1)
    (heff : eff = if M = 0 then t.support else M)
    (hsol : t.gcRec (((⌈eff * ms⌉ : ℤ) : ℚ)) = [sol]) :
    ∃ a : Str,
      (eff / 2 ≤ sol.support →
        t.get_consensus ms gd fd M = some (([a, a], [sol.support, sol.support]), t)) ∧
      (sol.support < eff / 2 →
        t.get_consensus ms gd fd M = some (([a], [sol.support]), t)) := by
  refine ⟨formatOne gd fd sol, ?_, ?_⟩
  · intro hc
    unfold FieldTree.get_consensus
    rw [if_pos ⟨h1, h0⟩, ← heff]
    simp [hsol, pySort, insertSorted, formatSolutions_eq_map, hc]
  · intro hc
    have hcn : ¬ eff / 2 ≤ sol.support := not_le.2 hc
    unfold FieldTree.get_consensus
    rw [if_pos ⟨h1, h0⟩, ← heff]
    simp [hsol, pySort, insertSorted, formatSolutions_eq_map, hcn]

/-- Closed instance of `FieldTree.get_consensus_single_solution`: a single-node
tree with support `1`, `min_support = 1/2` (threshold `1`), whose only
solution has support `1 ≥ 1/2`. -/
theorem FieldTree.get_consensus_single_solution_witness :
    ∃ a : Str,
      ((1 : ℚ) / 2 ≤ 1 →
        (FieldTree.node ['A'] 1 []).get_consensus (1/2) '*' ':' 0
          = some (([a, a], [1, 1]), FieldTree.node ['A'] 1 [])) ∧
      ((1 : ℚ) < 1 / 2 →
        (FieldTree.node ['A'] 1 []).get_consensus (1/2) '*' ':' 0
          = some (([a], [1]), FieldTree.node ['A'] 1 [])) :=
  FieldTree.get_consensus_single_solution (FieldTree.node ['A'] 1 []) (1/2) 0 1 '*' ':'
    ⟨['A'], 1⟩ (by norm_num) (by norm_num) (by norm_num [FieldTree.support])
    (by
      have hceil : (⌈(1 : ℚ) * (1/2)⌉ : ℤ) = 1 := by
        rw [Int.ceil_eq_iff]
        norm_num
      rw [hceil]
      norm_num [FieldTree.gcRec, FieldTree.children])

/-! ## Support accumulation through `FieldTree.add` -/

lemma FieldTree.add_field (t : FieldTree) (fields : List Str) (w : ℚ) :
    (t.add fields w).field = t.field := by
  cases t with
  | node f s cs => cases fields <;> rfl

lemma FieldTree.init_field (g : Str) : (FieldTree.init g).field = g := rfl

lemma supportAt_nil (t : FieldTree) : supportAt t [] = t.support := rfl

lemma supportAt_node_cons (f : Str) (s : ℚ) (cs : List FieldTree) (q : Str)
    (rest : List Str) :
    supportAt (.node f s cs) (q :: rest)
      = match cs.find? (fun c => c.field == q) with
        | some c => supportAt c rest
        | none => 0 := by
  cases hfind : cs.find? (fun c => c.field == q) with
  | none => simp only [supportAt, FieldTree.lookup, FieldTree.children, hfind]
  | some c => simp only [supportAt, FieldTree.lookup, FieldTree.children, hfind]

lemma supportAt_init (g : Str) (p : List Str) : supportAt (FieldTree.init g) p = 0 := by
  cases p with
  | nil => rfl
  | cons q rest => rfl

lemma updateChild_find_ne (g : FieldTree → FieldTree) (name q : Str)
    (hfield : ∀ c, (g c).field = c.field) (hq : q ≠ name) (cs : List FieldTree) :
    (FieldTree.updateChild g name cs).find? (fun c => c.field == q)
      = cs.find? (fun c => c.field == q) := by
  induction cs with
  | nil =>
    have h1 : (g (FieldTree.init name)).field = name := by
      rw [hfield]
      rfl
    show List.find? (fun c => c.field == q) [g (FieldTree.init name)] = none
    rw [List.find?_cons_of_neg _ (by simp [h1]; exact fun h => hq h.symm)]
    rfl
  | cons c cs ih =>
    by_cases hc : c.field = name
    · have hstep : FieldTree.updateChild g name (c :: cs) = g c :: cs := by
        simp [FieldTree.updateChild, hc]
      have h1 : (g c).field = name := by rw [hfield]; exact hc
      rw [hstep,
        List.find?_cons_of_neg _ (by simp [h1]; exact fun h => hq h.symm),
        List.find?_cons_of_neg _ (by simp [hc]; exact fun h => hq h.symm)]
    · have hstep : FieldTree.updateChild g name (c :: cs)
          = c :: FieldTree.updateChild g name cs := by
        simp [FieldTree.updateChild, hc]
      rw [hstep]
      by_cases hcq : c.field = q
      · rw [List.find?_cons_of_pos _ (by simp [hcq]),
          List.find?_cons_of_pos _ (by simp [hcq])]
      · rw [List.find?_cons_of_neg _ (by simp [hcq]),
          List.find?_cons_of_neg _ (by simp [hcq]), ih]

lemma updateChild_find_eq (g : FieldTree → FieldTree) (name : Str)
    (hfield : ∀ c, (g c).field = c.field) (cs : List FieldTree) :
    (FieldTree.updateChild g name cs).find? (fun c => c.field == name)
      = some (g ((cs.find? (fun c => c.field == name)).getD (FieldTree.init name))) := by
  induction cs with
  | nil =>
    have h1 : (g (FieldTree.init name)).field = name := by
      rw [hfield]
      rfl
    show List.find? (fun c => c.field == name) [g (FieldTree.init name)] = _
    rw [List.find?_cons_of_pos _ (by simp [h1])]
    rfl
  | cons c cs ih =>
    by_cases hc : c.field = name
    · have hstep : FieldTree.updateChild g name (c :: cs) = g c :: cs := by
        simp [FieldTree.updateChild, hc]
      have h1 : (g c).field = name := by rw [hfield]; exact hc
      rw [hstep, List.find?_cons_of_pos _ (by simp [h1]),
        List.find?_cons_of_pos _ (by simp [hc])]
      rfl
    · have hstep : FieldTree.updateChild g name (c :: cs)
          = c :: FieldTree.updateChild g name cs := by
        simp [FieldTree.updateChild, hc]
      rw [hstep, List.find?_cons_of_neg _ (by simp [hc]),
        List.find?_cons_of_neg _ (by simp [hc]), ih]

lemma supportAt_add (fields : List Str) (w : ℚ) (t : FieldTree) (p : List Str) :
    supportAt (t.add fields w) p = supportAt t p + (if p <+: fields then w else 0) := by
  induction fields generalizing t p with
  | nil =>
    cases t with
    | node f s cs =>
      cases p with
      | nil => simp [supportAt_nil, FieldTree.add, FieldTree.support]
      | cons q rest =>
        rw [show FieldTree.add (.node f s cs) [] w = .node f (s + w) cs from rfl,
          supportAt_node_cons, supportAt_node_cons]
        simp
  | cons name overhead ih =>
    cases t with
    | node f s cs =>
      cases p with
      | nil => simp [supportAt_nil, FieldTree.add, FieldTree.support, List.nil_prefix]
      | cons q rest =>
        rw [show FieldTree.add (.node f s cs) (name :: overhead) w
            = .node f (s + w)
                (FieldTree.updateChild (fun c => c.add overhead w) name cs) from rfl,
          supportAt_node_cons, supportAt_node_cons]
        by_cases hq : q = name
        · subst hq
          rw [updateChild_find_eq _ _ (fun c => FieldTree.add_field c overhead w)]
          have hpre : ((q :: rest) <+: (q :: overhead)) ↔ (rest <+: overhead) := by
            simp [List.cons_prefix_cons]
          cases hfind : cs.find? (fun c => c.field == q) with
          | some c =>
            simp only [hfind, Option.getD_some]
            rw [ih]
            by_cases hp : rest <+: overhead
            · simp [hp, hpre.2 hp]
            · simp [hp, fun h => hp (hpre.1 h)]
          | none =>
            simp only [hfind, Option.getD_none]
            rw [ih, supportAt_init]
            by_cases hp : rest <+: overhead
            · simp [hp, hpre.2 hp]
            · simp [hp, fun h => hp (hpre.1 h)]
        · rw [updateChild_find_ne _ _ _ (fun c => FieldTree.add_field c overhead w) hq]
          have hpre : ¬ ((q :: rest) <+: (name :: overhead)) := by
            simp [List.cons_prefix_cons, hq]
          simp [hpre]

lemma supportAt_foldl_add (obs : List (List Str × ℚ)) (t : FieldTree) (p : List Str) :
    supportAt (obs.foldl (fun t ob => t.add ob.1 ob.2) t) p
      = supportAt t p + ((obs.filter fun ob => decide (p <+: ob.1)).map Prod.snd).sum := by
  induction obs generalizing t with
  | nil => simp
  | cons ob obs ih =>
    rw [List.foldl_cons, ih, supportAt_add]
    by_cases hp : p <+: ob.1
    · simp [List.filter_cons, hp]
      ring
    · simp [List.filter_cons, hp]

/-- C3: every `add(fields, weight)` call adds exactly `weight` to the support
of every node on the inserted path, the root included, and leaves every other
node untouched; consequently, after building a tree from a fresh root by any
sequence of `add` calls, the support of each node equals the total weight of the
observations whose field path passes through or ends at that node. -/
theorem FieldTree.add_support_invariant :
    (∀ (t : FieldTree) (fields : List Str) (w : ℚ) (p : List Str),
      supportAt (t.add fields w) p
        = supportAt t p + (if p <+: fields then w else 0)) ∧
    (∀ (g : Str) (obs : List (List Str × ℚ)) (p : List Str),
      supportAt (buildTree g obs) p
        = ((obs.filter fun ob => decide (p <+: ob.1)).map Prod.snd).sum) := by
  constructor
  · exact fun t fields w p => supportAt_add fields w t p
  · intro g obs p
    rw [buildTree, supportAt_foldl_add, supportAt_init, zero_add]


